import Mathlib

set_option maxHeartbeats 1000000

/-!
Verification of the typed-response repository (modernice/typed-response).

The repository is a compile-time-only TypeScript library: it exports a type
transformation `ResponseOf<T, CustomMapping>` that turns a data shape `T`
into the shape a JSON API would produce when serializing `T`, replacing
`Date` with `string` by default, optionally overridden per field by a
caller-supplied mapping.

This file shallowly embeds the type-level rules of the two shipped
implementations over a grammar of type shapes, and proves the claimed
properties about them.

The grammar `Ty` covers the type shapes the library is specified, tested
and documented over: the JSON primitives `string`, `number`, `boolean`,
the `Date` type, `null` and `undefined`, arrays, tuples, object types with
optional properties, and the nullable and undefinable unions `X | null`
and `X | undefined` (represented by the constructors `orNull` and
`orUndef`; `X | null | undefined` is `orUndef (orNull X)`).  General
unions of two distinct non-null types are outside the grammar: on those
the source collapses to `unknown` (the final fallback of
`ReplacePrimitives`), a degenerate case no claim quantifies over.
-/

mutual

/-- A TypeScript type shape. -/
inductive Ty where
  | str
  | num
  | bool
  | date
  | null
  | undef
  | arr (elem : Ty)
  | tup (elems : TyList)
  | obj (fields : Fields)
  | orNull (t : Ty)
  | orUndef (t : Ty)
  deriving DecidableEq

/-- The positions of a tuple type. -/
inductive TyList where
  | nil
  | cons (head : Ty) (tail : TyList)
  deriving DecidableEq

/-- The properties of an object type: name, optionality flag (the `?`
modifier) and declared type.  For an optional property the declared type
is stored without the implicit `| undefined`. -/
inductive Fields where
  | nil
  | cons (name : String) (opt : Bool) (ty : Ty) (tail : Fields)
  deriving DecidableEq

end

/-- First property with the given name, as optionality flag and type. -/
def findField : Fields → String → Option (Bool × Ty)
  | .nil, _ => none
  | .cons k o t rest, key => if k = key then some (o, t) else findField rest key

/-- Lookup of a property in an object type; `none` on non-objects. -/
def fieldType (T : Ty) (key : String) : Option (Bool × Ty) :=
  match T with
  | .obj fs => findField fs key
  | _ => none

/-- Does `undefined extends X` hold, i.e. is `undefined` a union
constituent of `X`?  This is the test the key-remapping clauses of
`ApplyOptionalMapping` and `ApplyRequiredMapping` perform on the mapped
property type. -/
def undefInTop : Ty → Bool
  | .undef => true
  | .orUndef _ => true
  | .orNull t => undefInTop t
  | _ => false

/-- Is the top constructor an `orUndef` union? -/
def isOrUndef : Ty → Bool
  | .orUndef _ => true
  | _ => false

/-- Remove the `undefined` constituents of a top-level union.  Used to
store the canonical declared type of an optional result property: the TS
types `{ a?: X | undefined }` and `{ a?: X }` are one and the same type,
and the `Fields` representation stores the latter. -/
def stripUndef : Ty → Ty
  | .orUndef t => stripUndef t
  | .orNull t => .orNull (stripUndef t)
  | t => t

/-- Does `X extends Record<string, any>` (the `Mappable` alias of the
source) hold?  Object, array and tuple types do; `Date` does as well
(every interface is assignable to an `any`-valued index signature);
primitives, `null`, `undefined` and unions containing them do not. -/
def isMappable : Ty → Bool
  | .obj _ => true
  | .arr _ => true
  | .tup _ => true
  | .date => true
  | _ => false

/-- Does `X extends Array<unknown>` hold?  Arrays and tuples do. -/
def isArray : Ty → Bool
  | .arr _ => true
  | .tup _ => true
  | _ => false

/-- The indexed access `M[key]` of a mapping object, `none` when the test
`unknown extends M[key]` of `ApplyMappingToProperty` succeeds, i.e. when
the mapping does not constrain the property.  An optional mapping key
contributes its declared type with `| undefined`. -/
def mapLookup (M : Ty) (key : String) : Option Ty :=
  match M with
  | .obj ms =>
    match findField ms key with
    | some (o, v) => some (if o then .orUndef v else v)
    | none => none
  | _ => none

mutual

/-- Embeds `Expand` of src/unnamed/part_000: `T extends
Record<string, unknown> ? { [K in keyof T]: Expand<T[K]> } : T`.  Only
object literal types are assignable to `Record<string, unknown>` (arrays
and interfaces are not), the conditional distributes over the `| null`
and `| undefined` unions, and the homomorphic mapped type preserves the
optionality modifiers. -/
def Expand : Ty → Ty
  | .obj fs => .obj (ExpandFields fs)
  | .orNull t => .orNull (Expand t)
  | .orUndef t => .orUndef (Expand t)
  | .str => .str
  | .num => .num
  | .bool => .bool
  | .date => .date
  | .null => .null
  | .undef => .undef
  | .arr t => .arr t
  | .tup ts => .tup ts

/-- Property-wise action of `Expand` on an object type. -/
def ExpandFields : Fields → Fields
  | .nil => .nil
  | .cons k o t rest => .cons k o (Expand t) (ExpandFields rest)

end

mutual

/-- Embeds `ReplacePrimitives` of src/unnamed/part_000 (with the default
instantiation of its `TNotNull`, `TNotUndefined`, `TStrict` parameters,
which is how every recursive occurrence and the default-mapping path use
it).  The distributive conditional sends the `null` and `undefined`
constituents through the first two branches, which re-attach `| null`
resp. `| undefined` around the image of the remaining constituents;
strings, numbers and booleans are returned unchanged; `Date` becomes
`string`; arrays, tuples and objects satisfy `[TStrict] extends
[Mappable]` and are mapped homomorphically (preserving optionality
modifiers and tuple positions). -/
def ReplacePrimitives : Ty → Ty
  | .str => .str
  | .num => .num
  | .bool => .bool
  | .date => .str
  | .null => .null
  | .undef => .undef
  | .arr t => .arr (ReplacePrimitives t)
  | .tup ts => .tup (ReplacePrimitivesList ts)
  | .obj fs => .obj (ReplacePrimitivesFields fs)
  | .orNull t => .orNull (ReplacePrimitives t)
  | .orUndef t => .orUndef (ReplacePrimitives t)

/-- Position-wise action of `ReplacePrimitives` on a tuple type. -/
def ReplacePrimitivesList : TyList → TyList
  | .nil => .nil
  | .cons t ts => .cons (ReplacePrimitives t) (ReplacePrimitivesList ts)

/-- Property-wise action of `ReplacePrimitives` on an object type. -/
def ReplacePrimitivesFields : Fields → Fields
  | .nil => .nil
  | .cons k o t rest => .cons k o (ReplacePrimitives t) (ReplacePrimitivesFields rest)

end

/-- Embeds `ResponseOf<T>` of src/unnamed/part_000 with no custom mapping:
the branch `[CustomMapping] extends [never]` is taken and the result is
`Expand<ReplacePrimitives<T, never>>`.  (`ReplacePrimitives<T, never>`
coincides with the default instantiation on this grammar: the `TNotNull`
parameter is only read for the `null` constituent, whose branch then
produces `never | null = null`, exactly what the other constituents also
leave.) -/
def ResponseOf (T : Ty) : Ty := Expand (ReplacePrimitives T)

mutual

/-- Embeds `ApplyMapping<M, T>` of src/unnamed/part_000: on `T extends
Record<string, unknown>` (object literal types; the naked conditional
distributes over `| null` / `| undefined` unions and leaves every other
type unchanged) it evaluates `Expand<ApplyOptionalMapping<M, T> &
ApplyRequiredMapping<M, T>>`, realized here by `applyMappingFields`. -/
def ApplyMapping (M : Ty) : Ty → Ty
  | .obj fs => Expand (.obj (applyMappingFields M fs))
  | .orNull t => .orNull (ApplyMapping M t)
  | .orUndef t => .orUndef (ApplyMapping M t)
  | .str => .str
  | .num => .num
  | .bool => .bool
  | .date => .date
  | .null => .null
  | .undef => .undef
  | .arr t => .arr t
  | .tup ts => .tup ts

/-- Fused embedding of `ApplyOptionalMapping<M, T> &
ApplyRequiredMapping<M, T>` of src/unnamed/part_000, keeping the source
order of the properties (TS object types are unordered; this embedding
uses declaration order as the canonical order).  For each property `K`
of `T` the value `v` is `ApplyMappingToProperty<M, T, K>`:

* `unknown extends M[K]` (no mapping entry): `v` is `T[K]`, which for an
  optional property is `t | undefined`;
* otherwise, when `T[K]` is not `Mappable` (in particular for every
  optional property, whose `T[K]` is a union with `undefined`), or is an
  array or tuple: `v` is `M[K]`;
* otherwise (`T[K]` a mappable object): `v` is `ApplyMapping<M[K], T[K]>`.

The key remapping clauses then dispose of the property: an optional key
stays optional when `undefined extends v` (storing the canonical
`stripUndef v`) and becomes required otherwise; a required key is kept
exactly when `undefined` does not extend `v`, and is dropped otherwise
(`ApplyRequiredMapping` remaps it to `never`). -/
def applyMappingFields (M : Ty) : Fields → Fields
  | .nil => .nil
  | .cons k opt t rest =>
    let v : Ty :=
      match mapLookup M k with
      | none => if opt then .orUndef t else t
      | some mk =>
        if opt then mk
        else if !isMappable t then mk
        else if isArray t then mk
        else ApplyMapping mk t
    let restOut := applyMappingFields M rest
    if opt then
      if undefInTop v then .cons k true (stripUndef v) restOut
      else .cons k false v restOut
    else
      if undefInTop v then restOut
      else .cons k false v restOut

end

/-- Embeds `ApplyMappingToProperty<Map, Obj, Prop>` of
src/unnamed/part_000 for the property value `t` (the declared type;
`opt` tells whether the property is optional, in which case `Obj[Prop]`
is `t | undefined`) and a present mapping entry `mk = Map[Prop]`.  When
the property is optional its `Obj[Prop]` contains `undefined` and is
therefore never `Mappable`, so the `false extends ValueIsMappable`
branch returns `Map[Prop]` wholesale. -/
def ApplyMappingToProperty (mk : Ty) (opt : Bool) (t : Ty) : Ty :=
  if opt then mk
  else if !isMappable t then mk
  else if isArray t then mk
  else ApplyMapping mk t

/-- Embeds `ResponseOf<T, CustomMapping>` of src/unnamed/part_000 for an
object type `T = obj fs` and a supplied mapping `M` (so the
`[CustomMapping] extends [never]` branch is not taken):
`ApplyMapping<CustomMapping, ReplacePrimitives<T, CustomMapping>>`.
The custom-mapping entry point is embedded for object shapes: the second
argument `CustomMapping` that the source passes into the `TNotNull`
parameter of `ReplacePrimitives` is only read in the `T extends null`
branch, which an object type never takes, so on this domain
`ReplacePrimitives<T, CustomMapping>` is the default instantiation. -/
def ResponseOfM (fs : Fields) (M : Ty) : Ty :=
  ApplyMapping M (ReplacePrimitives (.obj fs))

/-- The `Person` type declared in src/index.test-d.ts:
`{ name: string; birthday: Date; contact: { email: string;
phone: string[]; contactedAt: Date | null }; social: { twitter?: string };
tuple: [Date, string, number] }`. -/
def PersonFields : Fields :=
  .cons "name" false .str
    (.cons "birthday" false .date
      (.cons "contact" false
        (.obj (.cons "email" false .str
          (.cons "phone" false (.arr .str)
            (.cons "contactedAt" false (.orNull .date) .nil))))
        (.cons "social" false (.obj (.cons "twitter" true .str .nil))
          (.cons "tuple" false
            (.tup (.cons .date (.cons .str (.cons .num .nil)))) .nil))))

/-- The `Person` type of the test file as a `Ty`. -/
def Person : Ty := .obj PersonFields

/-- The shape asserted by `expectType<DefaultResponse>` in
src/index.test-d.ts for `ResponseOf<Person>`:
`{ name: string; birthday: string; contact: { email: string;
phone: string[]; contactedAt: string | null }; social:
{ twitter?: string }; tuple: [string, string, number] }`. -/
def DefaultResponse : Ty :=
  .obj (.cons "name" false .str
    (.cons "birthday" false .str
      (.cons "contact" false
        (.obj (.cons "email" false .str
          (.cons "phone" false (.arr .str)
            (.cons "contactedAt" false (.orNull .str) .nil))))
        (.cons "social" false (.obj (.cons "twitter" true .str .nil))
          (.cons "tuple" false
            (.tup (.cons .str (.cons .str (.cons .num .nil)))) .nil)))))

/-- The custom mapping supplied in src/index.test-d.ts:
`{ name: [string, string]; birthday: number; contact: { phone: string;
contactedAt: Date | null }; social: { twitter: string };
tuple: [number, string, string] }`. -/
def PersonMapping : Ty :=
  .obj (.cons "name" false (.tup (.cons .str (.cons .str .nil)))
    (.cons "birthday" false .num
      (.cons "contact" false
        (.obj (.cons "phone" false .str
          (.cons "contactedAt" false (.orNull .date) .nil)))
        (.cons "social" false (.obj (.cons "twitter" false .str .nil))
          (.cons "tuple" false
            (.tup (.cons .num (.cons .str (.cons .str .nil)))) .nil)))))

/-- The shape asserted by `expectType<MappedResponse>` in
src/index.test-d.ts for `ResponseOf<Person, Mapping>`:
`{ name: [string, string]; birthday: number; contact: { email: string;
phone: string; contactedAt: Date | null }; social: { twitter: string };
tuple: [number, string, string] }`. -/
def MappedResponse : Ty :=
  .obj (.cons "name" false (.tup (.cons .str (.cons .str .nil)))
    (.cons "birthday" false .num
      (.cons "contact" false
        (.obj (.cons "email" false .str
          (.cons "phone" false .str
            (.cons "contactedAt" false (.orNull .date) .nil))))
        (.cons "social" false (.obj (.cons "twitter" false .str .nil))
          (.cons "tuple" false
            (.tup (.cons .num (.cons .str (.cons .str .nil)))) .nil)))))

mutual

/-- Shape of a JSON-serialized value, written after the words of the
specification and of claim C1 (the refinement reference the source
`ResponseOf` is compared against): `string`, `number` and `boolean` are
left unchanged, every occurrence of `Date` — at any nesting depth,
including inside arrays and tuples — is replaced by `string`, each
property of an object type is normalized recursively, and `null` (and
`undefined`) constituents are preserved, as JSON serialization preserves
`null`. -/
def SpecJsonShape : Ty → Ty
  | .str => .str
  | .num => .num
  | .bool => .bool
  | .date => .str
  | .null => .null
  | .undef => .undef
  | .arr t => .arr (SpecJsonShape t)
  | .tup ts => .tup (SpecJsonShapeList ts)
  | .obj fs => .obj (SpecJsonShapeFields fs)
  | .orNull t => .orNull (SpecJsonShape t)
  | .orUndef t => .orUndef (SpecJsonShape t)

/-- Position-wise `SpecJsonShape` on tuples. -/
def SpecJsonShapeList : TyList → TyList
  | .nil => .nil
  | .cons t ts => .cons (SpecJsonShape t) (SpecJsonShapeList ts)

/-- Property-wise `SpecJsonShape` on object properties. -/
def SpecJsonShapeFields : Fields → Fields
  | .nil => .nil
  | .cons k o t rest => .cons k o (SpecJsonShape t) (SpecJsonShapeFields rest)

end

/-- Does `null extends X` hold, i.e. is `null` a union constituent of
`X`?  This is the `null extends T[K]` test of the `ResponseOf` in
src/index.d.ts. -/
def nullInTop : Ty → Bool
  | .null => true
  | .orNull _ => true
  | .orUndef t => nullInTop t
  | _ => false

/-- Does `X extends Date | null` hold, i.e. is every union constituent of
`X` a `Date` or `null`? -/
def extendsDateNull : Ty → Bool
  | .date => true
  | .null => true
  | .orNull t => extendsDateNull t
  | .orUndef _ => false
  | _ => false

/-- Attach `| undefined` to a type, normalizing the TS union
`X | undefined` (absorbing when `undefined` is already a constituent). -/
def addUndef (t : Ty) : Ty :=
  if undefInTop t then t else .orUndef t

namespace IndexD

mutual

/-- Embeds the `ResponseOf<T>` of src/index.d.ts with no custom mapping
(so `ActualMapping` is the all-optional, `any`-valued `Mapping<T>`, which
makes the inner `ApplyMapping` a pass-through because `unknown extends
M[K]` holds for every key).  The chain of naked conditionals distributes
over union constituents: `string` and `Date` become `string`; `number`
and `boolean` are returned; a `Mappable` type (objects, arrays and
tuples) is mapped homomorphically, transforming each property `T[K]` by
`null extends T[K] ? (T[K] extends Date | null ? string :
ResponseOf<T[K]> | undefined) : ResponseOf<T[K]>`; any other constituent
(`null`, `undefined`) falls through to the final `: string`.

A union of two distinct result constituents other than the represented
`X | null` / `X | undefined` forms leaves the `Ty` grammar, in which case
this embedding returns `none` (for example `ResponseOf<number | null>`,
which the source evaluates to `number | string`).  On inputs where the
source result is representable the embedding returns it in `some`. -/
def ResponseOf : Ty → Option Ty
  | .str => some .str
  | .num => some .num
  | .bool => some .bool
  | .date => some .str
  | .null => some .str
  | .undef => some .str
  | .orNull t =>
    match ResponseOf t with
    | some .str => some .str
    | _ => none
  | .orUndef t =>
    match ResponseOf t with
    | some .str => some .str
    | _ => none
  | .arr t =>
    (if nullInTop t then
      if extendsDateNull t then some .str
      else (ResponseOf t).map addUndef
    else ResponseOf t).map .arr
  | .tup ts => (respList ts).map .tup
  | .obj fs => (respFields fs).map .obj

/-- Position-wise property transform of the src/index.d.ts `ResponseOf`
on tuple types. -/
def respList : TyList → Option TyList
  | .nil => some .nil
  | .cons t ts =>
    match
      (if nullInTop t then
        if extendsDateNull t then some .str
        else (ResponseOf t).map addUndef
      else ResponseOf t), respList ts with
    | some v, some vs => some (.cons v vs)
    | _, _ => none

/-- Property-wise transform of the src/index.d.ts `ResponseOf` on object
types.  For an optional property `T[K]` is `t | undefined`; the
distributive `ResponseOf<t | undefined>` is `ResponseOf<t> | string`
(the `undefined` constituent falls through to `: string`), which stays
in the grammar exactly when `ResponseOf<t>` is `string`; the homomorphic
mapped type keeps the `?` modifier and the stored declared type is the
canonical `stripUndef` image. -/
def respFields : Fields → Option Fields
  | .nil => some .nil
  | .cons k opt t rest =>
    match
      (if opt then
        match ResponseOf t with
        | some .str => some .str
        | _ => none
      else if nullInTop t then
        if extendsDateNull t then some .str
        else (ResponseOf t).map addUndef
      else ResponseOf t), respFields rest with
    | some v, some vs => some (.cons k opt (if opt then stripUndef v else v) vs)
    | _, _ => none

end

end IndexD

mutual

/-- The strict fragment of the grammar: no `null`, `undefined` or union
anywhere, and every object property required. -/
def strictAll : Ty → Bool
  | .str => true
  | .num => true
  | .bool => true
  | .date => true
  | .null => false
  | .undef => false
  | .arr t => strictAll t
  | .tup ts => strictAllList ts
  | .obj fs => strictAllFields fs
  | .orNull _ => false
  | .orUndef _ => false

/-- `strictAll` on tuple positions. -/
def strictAllList : TyList → Bool
  | .nil => true
  | .cons t ts => strictAll t && strictAllList ts

/-- `strictAll` on object properties (also requiring them all to be
non-optional). -/
def strictAllFields : Fields → Bool
  | .nil => true
  | .cons _ opt t rest => !opt && strictAll t && strictAllFields rest

end

/-- Properties on which the key-remapping clauses of `ApplyMapping` act
as the identity when no mapping entry matches: no property whose declared
type contains a top-level `undefined` constituent.  A required property
violating this is dropped by `ApplyRequiredMapping`, and an optional one
would be rewritten to its canonical declared type. -/
def emptyMappingSafe : Fields → Bool
  | .nil => true
  | .cons _ _ t rest => !undefInTop t && emptyMappingSafe rest

mutual

/-- Depth-style size of a shape, an upper bound on the recursion depth of
the transformations; the fuel-indexed evaluators below are proven total
at this bound. -/
def tySize : Ty → Nat
  | .str => 1
  | .num => 1
  | .bool => 1
  | .date => 1
  | .null => 1
  | .undef => 1
  | .arr t => tySize t + 1
  | .tup ts => tyListSize ts + 1
  | .obj fs => fieldsSize fs + 1
  | .orNull t => tySize t + 1
  | .orUndef t => tySize t + 1

/-- Size of tuple positions. -/
def tyListSize : TyList → Nat
  | .nil => 1
  | .cons t ts => max (tySize t + 1) (tyListSize ts + 1)

/-- Size of object properties. -/
def fieldsSize : Fields → Nat
  | .nil => 1
  | .cons _ _ t rest => max (tySize t + 1) (fieldsSize rest + 1)

end

mutual

/-- Fuel-indexed evaluator of `ReplacePrimitives`: one recursion step per
unit of fuel, `none` when the fuel runs out.  Witnesses that the
recursion of the source terminates within `tySize` steps. -/
def replacePrimitivesFuel : Nat → Ty → Option Ty
  | 0, _ => none
  | _ + 1, .str => some .str
  | _ + 1, .num => some .num
  | _ + 1, .bool => some .bool
  | _ + 1, .date => some .str
  | _ + 1, .null => some .null
  | _ + 1, .undef => some .undef
  | n + 1, .arr t => (replacePrimitivesFuel n t).map .arr
  | n + 1, .tup ts => (replacePrimitivesListFuel n ts).map .tup
  | n + 1, .obj fs => (replacePrimitivesFieldsFuel n fs).map .obj
  | n + 1, .orUndef t => (replacePrimitivesFuel n t).map .orUndef
  | n + 1, .orNull t => (replacePrimitivesFuel n t).map .orNull

/-- Fuel-indexed `ReplacePrimitivesList`. -/
def replacePrimitivesListFuel : Nat → TyList → Option TyList
  | 0, _ => none
  | _ + 1, .nil => some .nil
  | n + 1, .cons t ts =>
    match replacePrimitivesFuel n t, replacePrimitivesListFuel n ts with
    | some v, some vs => some (.cons v vs)
    | _, _ => none

/-- Fuel-indexed `ReplacePrimitivesFields`. -/
def replacePrimitivesFieldsFuel : Nat → Fields → Option Fields
  | 0, _ => none
  | _ + 1, .nil => some .nil
  | n + 1, .cons k o t rest =>
    match replacePrimitivesFuel n t, replacePrimitivesFieldsFuel n rest with
    | some v, some vs => some (.cons k o v vs)
    | _, _ => none

end

mutual

/-- Fuel-indexed evaluator of `ApplyMapping`: one recursion step per unit
of fuel, `none` when the fuel runs out. -/
def applyMappingFuel : Nat → Ty → Ty → Option Ty
  | 0, _, _ => none
  | n + 1, M, .obj fs => (applyMappingFieldsFuel n M fs).map (fun out => Expand (.obj out))
  | n + 1, M, .orNull t => (applyMappingFuel n M t).map .orNull
  | n + 1, M, .orUndef t => (applyMappingFuel n M t).map .orUndef
  | _ + 1, _, .str => some .str
  | _ + 1, _, .num => some .num
  | _ + 1, _, .bool => some .bool
  | _ + 1, _, .date => some .date
  | _ + 1, _, .null => some .null
  | _ + 1, _, .undef => some .undef
  | _ + 1, _, .arr t => some (.arr t)
  | _ + 1, _, .tup ts => some (.tup ts)

/-- Fuel-indexed `applyMappingFields`. -/
def applyMappingFieldsFuel : Nat → Ty → Fields → Option Fields
  | 0, _, _ => none
  | _ + 1, _, .nil => some .nil
  | n + 1, M, .cons k opt t rest =>
    let vOut : Option Ty :=
      match mapLookup M k with
      | none => some (if opt then .orUndef t else t)
      | some mk =>
        if opt then some mk
        else if !isMappable t then some mk
        else if isArray t then some mk
        else applyMappingFuel n mk t
    match vOut, applyMappingFieldsFuel n M rest with
    | some v, some restOut =>
      if opt then
        if undefInTop v then some (.cons k true (stripUndef v) restOut)
        else some (.cons k false v restOut)
      else
        if undefInTop v then some restOut
        else some (.cons k false v restOut)
    | _, _ => none

end

/-- Fuel-indexed evaluator of the custom-mapping pipeline
`ResponseOfM`. -/
def responseOfMFuel (n : Nat) (fs : Fields) (M : Ty) : Option Ty :=
  (replacePrimitivesFuel n (.obj fs)).bind (fun t => applyMappingFuel n M t)

mutual

theorem Expand_id : (t : Ty) → Expand t = t
  | .str => rfl
  | .num => rfl
  | .bool => rfl
  | .date => rfl
  | .null => rfl
  | .undef => rfl
  | .arr _ => rfl
  | .tup _ => rfl
  | .obj fs => by simp [Expand, ExpandFields_id fs]
  | .orNull t => by simp [Expand, Expand_id t]
  | .orUndef t => by simp [Expand, Expand_id t]

theorem ExpandFields_id : (fs : Fields) → ExpandFields fs = fs
  | .nil => rfl
  | .cons k o t rest => by simp [ExpandFields, Expand_id t, ExpandFields_id rest]

end

mutual

theorem rp_eq_spec : (t : Ty) → ReplacePrimitives t = SpecJsonShape t
  | .str => rfl
  | .num => rfl
  | .bool => rfl
  | .date => rfl
  | .null => rfl
  | .undef => rfl
  | .arr t => by simp [ReplacePrimitives, SpecJsonShape, rp_eq_spec t]
  | .tup ts => by simp [ReplacePrimitives, SpecJsonShape, rpList_eq_spec ts]
  | .obj fs => by simp [ReplacePrimitives, SpecJsonShape, rpFields_eq_spec fs]
  | .orNull t => by simp [ReplacePrimitives, SpecJsonShape, rp_eq_spec t]
  | .orUndef t => by simp [ReplacePrimitives, SpecJsonShape, rp_eq_spec t]

theorem rpList_eq_spec : (ts : TyList) → ReplacePrimitivesList ts = SpecJsonShapeList ts
  | .nil => rfl
  | .cons t ts => by
    simp [ReplacePrimitivesList, SpecJsonShapeList, rp_eq_spec t, rpList_eq_spec ts]

theorem rpFields_eq_spec : (fs : Fields) → ReplacePrimitivesFields fs = SpecJsonShapeFields fs
  | .nil => rfl
  | .cons k o t rest => by
    simp [ReplacePrimitivesFields, SpecJsonShapeFields, rp_eq_spec t, rpFields_eq_spec rest]

end

mutual

theorem rp_idem : (t : Ty) → ReplacePrimitives (ReplacePrimitives t) = ReplacePrimitives t
  | .str => rfl
  | .num => rfl
  | .bool => rfl
  | .date => rfl
  | .null => rfl
  | .undef => rfl
  | .arr t => by simp [ReplacePrimitives, rp_idem t]
  | .tup ts => by simp [ReplacePrimitives, rpList_idem ts]
  | .obj fs => by simp [ReplacePrimitives, rpFields_idem fs]
  | .orNull t => by simp [ReplacePrimitives, rp_idem t]
  | .orUndef t => by simp [ReplacePrimitives, rp_idem t]

theorem rpList_idem :
    (ts : TyList) → ReplacePrimitivesList (ReplacePrimitivesList ts) = ReplacePrimitivesList ts
  | .nil => rfl
  | .cons t ts => by simp [ReplacePrimitivesList, rp_idem t, rpList_idem ts]

theorem rpFields_idem :
    (fs : Fields) → ReplacePrimitivesFields (ReplacePrimitivesFields fs) = ReplacePrimitivesFields fs
  | .nil => rfl
  | .cons k o t rest => by simp [ReplacePrimitivesFields, rp_idem t, rpFields_idem rest]

end

theorem findField_rpFields : (fs : Fields) → (key : String) →
    findField (ReplacePrimitivesFields fs) key
      = (findField fs key).map (fun p => (p.1, ReplacePrimitives p.2))
  | .nil, _ => rfl
  | .cons k o t rest, key => by
    by_cases h : k = key <;>
      simp [ReplacePrimitivesFields, findField, h, findField_rpFields rest key]

theorem undefInTop_rp : (t : Ty) → undefInTop (ReplacePrimitives t) = undefInTop t
  | .str => rfl
  | .num => rfl
  | .bool => rfl
  | .date => rfl
  | .null => rfl
  | .undef => rfl
  | .arr _ => rfl
  | .tup _ => rfl
  | .obj _ => rfl
  | .orNull t => by simp [ReplacePrimitives, undefInTop, undefInTop_rp t]
  | .orUndef _ => by simp [ReplacePrimitives, undefInTop]

theorem stripUndef_of_noUndef : (t : Ty) → undefInTop t = false → stripUndef t = t
  | .str, _ => rfl
  | .num, _ => rfl
  | .bool, _ => rfl
  | .date, _ => rfl
  | .null, _ => rfl
  | .arr _, _ => rfl
  | .tup _, _ => rfl
  | .obj _, _ => rfl
  | .orNull t, h => by
    simp [undefInTop] at h
    simp [stripUndef, stripUndef_of_noUndef t h]

theorem emptyMappingSafe_rp : (fs : Fields) →
    emptyMappingSafe (ReplacePrimitivesFields fs) = emptyMappingSafe fs
  | .nil => rfl
  | .cons k o t rest => by
    simp [ReplacePrimitivesFields, emptyMappingSafe, undefInTop_rp t, emptyMappingSafe_rp rest]

theorem applyMappingFields_empty : (fs : Fields) → emptyMappingSafe fs = true →
    applyMappingFields (.obj .nil) fs = fs
  | .nil, _ => rfl
  | .cons k opt t rest, h => by
    simp [emptyMappingSafe] at h
    obtain ⟨ht, hrest⟩ := h
    cases opt <;>
      simp [applyMappingFields, mapLookup, findField, ht, undefInTop, stripUndef,
        stripUndef_of_noUndef t ht, applyMappingFields_empty rest hrest]

theorem findField_amFields_skip (M : Ty) (k : String) (o1 : Bool) (t1 : Ty)
    (rest : Fields) (key : String) (hk : ¬k = key) :
    findField (applyMappingFields M (.cons k o1 t1 rest)) key
      = findField (applyMappingFields M rest) key := by
  have hcons : ∀ (o : Bool) (v : Ty),
      findField (Fields.cons k o v (applyMappingFields M rest)) key
        = findField (applyMappingFields M rest) key := by
    intro o v
    simp [findField, hk]
  simp only [applyMappingFields]
  repeat' split
  all_goals first
    | rfl
    | exact hcons _ _

theorem findField_amFields_unmappedOpt : (fs : Fields) → (key : String) →
    (M : Ty) → (t : Ty) →
    mapLookup M key = none → findField fs key = some (true, t) →
    findField (applyMappingFields M fs) key = some (true, stripUndef t)
  | .cons k opt t1 rest, key, M, t, hm, hf => by
    by_cases hk : k = key
    · subst hk
      simp [findField] at hf
      obtain ⟨ho, ht⟩ := hf
      subst ho; subst ht
      simp [applyMappingFields, hm, undefInTop, findField, stripUndef]
    · simp [findField, hk] at hf
      have ih := findField_amFields_unmappedOpt rest key M t hm hf
      rw [findField_amFields_skip M k opt t1 rest key hk, ih]

theorem findField_amFields_unmappedReq : (fs : Fields) → (key : String) →
    (M : Ty) → (t : Ty) →
    mapLookup M key = none → findField fs key = some (false, t) →
    undefInTop t = false →
    findField (applyMappingFields M fs) key = some (false, t)
  | .cons k opt t1 rest, key, M, t, hm, hf, ht => by
    by_cases hk : k = key
    · subst hk
      simp [findField] at hf
      obtain ⟨ho, ht1⟩ := hf
      subst ho; subst ht1
      simp [applyMappingFields, hm, ht, findField]
    · simp [findField, hk] at hf
      have ih := findField_amFields_unmappedReq rest key M t hm hf ht
      rw [findField_amFields_skip M k opt t1 rest key hk, ih]

theorem findField_amFields_mapped : (fs : Fields) → (key : String) →
    (M : Ty) → (t : Ty) → (mk : Ty) →
    mapLookup M key = some mk → findField fs key = some (false, t) →
    undefInTop (ApplyMappingToProperty mk false t) = false →
    findField (applyMappingFields M fs) key
      = some (false, ApplyMappingToProperty mk false t)
  | .cons k opt t1 rest, key, M, t, mk, hm, hf, hv => by
    by_cases hk : k = key
    · subst hk
      simp [findField] at hf
      obtain ⟨ho, ht1⟩ := hf
      subst ho; subst ht1
      simp [ApplyMappingToProperty] at hv
      simp [applyMappingFields, hm, hv, findField, ApplyMappingToProperty]
    · simp [findField, hk] at hf
      have ih := findField_amFields_mapped rest key M t mk hm hf hv
      rw [findField_amFields_skip M k opt t1 rest key hk, ih]

theorem nullInTop_of_strict (t : Ty) (h : strictAll t = true) : nullInTop t = false := by
  cases t <;> simp_all [strictAll, nullInTop]

mutual

theorem indexd_strict : (t : Ty) → strictAll t = true →
    IndexD.ResponseOf t = some (ReplacePrimitives t)
  | .str, _ => rfl
  | .num, _ => rfl
  | .bool, _ => rfl
  | .date, _ => rfl
  | .null, h => by simp [strictAll] at h
  | .undef, h => by simp [strictAll] at h
  | .orNull _, h => by simp [strictAll] at h
  | .orUndef _, h => by simp [strictAll] at h
  | .arr t, h => by
    simp [strictAll] at h
    simp [IndexD.ResponseOf, nullInTop_of_strict t h, indexd_strict t h, ReplacePrimitives]
  | .tup ts, h => by
    simp [strictAll] at h
    simp [IndexD.ResponseOf, indexd_strictList ts h, ReplacePrimitives]
  | .obj fs, h => by
    simp [strictAll] at h
    simp [IndexD.ResponseOf, indexd_strictFields fs h, ReplacePrimitives]

theorem indexd_strictList : (ts : TyList) → strictAllList ts = true →
    IndexD.respList ts = some (ReplacePrimitivesList ts)
  | .nil, _ => rfl
  | .cons t ts, h => by
    simp [strictAllList] at h
    obtain ⟨h1, h2⟩ := h
    simp [IndexD.respList, nullInTop_of_strict t h1, indexd_strict t h1,
      indexd_strictList ts h2, ReplacePrimitivesList]

theorem indexd_strictFields : (fs : Fields) → strictAllFields fs = true →
    IndexD.respFields fs = some (ReplacePrimitivesFields fs)
  | .nil, _ => rfl
  | .cons k o t rest, h => by
    have ho : o = false := by cases o <;> simp_all [strictAllFields]
    subst ho
    have h1 : strictAll t = true := by simp_all [strictAllFields]
    have h2 : strictAllFields rest = true := by simp_all [strictAllFields]
    simp [IndexD.respFields, nullInTop_of_strict t h1, indexd_strict t h1,
      indexd_strictFields rest h2, ReplacePrimitivesFields]

end

mutual

theorem tySize_rp : (t : Ty) → tySize (ReplacePrimitives t) = tySize t
  | .str => rfl
  | .num => rfl
  | .bool => rfl
  | .date => rfl
  | .null => rfl
  | .undef => rfl
  | .arr t => by simp [ReplacePrimitives, tySize, tySize_rp t]
  | .tup ts => by simp [ReplacePrimitives, tySize, tyListSize_rp ts]
  | .obj fs => by simp [ReplacePrimitives, tySize, fieldsSize_rp fs]
  | .orNull t => by simp [ReplacePrimitives, tySize, tySize_rp t]
  | .orUndef t => by simp [ReplacePrimitives, tySize, tySize_rp t]

theorem tyListSize_rp : (ts : TyList) → tyListSize (ReplacePrimitivesList ts) = tyListSize ts
  | .nil => rfl
  | .cons t ts => by
    simp [ReplacePrimitivesList, tyListSize, tySize_rp t, tyListSize_rp ts]

theorem fieldsSize_rp : (fs : Fields) → fieldsSize (ReplacePrimitivesFields fs) = fieldsSize fs
  | .nil => rfl
  | .cons k o t rest => by
    simp [ReplacePrimitivesFields, fieldsSize, tySize_rp t, fieldsSize_rp rest]

end

mutual

theorem rpFuel_adequate : (t : Ty) → (n : Nat) → tySize t ≤ n →
    replacePrimitivesFuel n t = some (ReplacePrimitives t)
  | t, 0, h => by cases t <;> simp [tySize] at h
  | .str, _ + 1, _ => rfl
  | .num, _ + 1, _ => rfl
  | .bool, _ + 1, _ => rfl
  | .date, _ + 1, _ => rfl
  | .null, _ + 1, _ => rfl
  | .undef, _ + 1, _ => rfl
  | .arr t, n + 1, h => by
    have ht : tySize t ≤ n := by simp [tySize] at h; omega
    simp [replacePrimitivesFuel, rpFuel_adequate t n ht, ReplacePrimitives]
  | .tup ts, n + 1, h => by
    have ht : tyListSize ts ≤ n := by simp [tySize] at h; omega
    simp [replacePrimitivesFuel, rpListFuel_adequate ts n ht, ReplacePrimitives]
  | .obj fs, n + 1, h => by
    have hf : fieldsSize fs ≤ n := by simp [tySize] at h; omega
    simp [replacePrimitivesFuel, rpFieldsFuel_adequate fs n hf, ReplacePrimitives]
  | .orNull t, n + 1, h => by
    have ht : tySize t ≤ n := by simp [tySize] at h; omega
    simp [replacePrimitivesFuel, rpFuel_adequate t n ht, ReplacePrimitives]
  | .orUndef t, n + 1, h => by
    have ht : tySize t ≤ n := by simp [tySize] at h; omega
    simp [replacePrimitivesFuel, rpFuel_adequate t n ht, ReplacePrimitives]

theorem rpListFuel_adequate : (ts : TyList) → (n : Nat) → tyListSize ts ≤ n →
    replacePrimitivesListFuel n ts = some (ReplacePrimitivesList ts)
  | ts, 0, h => by cases ts <;> simp [tyListSize] at h
  | .nil, _ + 1, _ => rfl
  | .cons t ts, n + 1, h => by
    have h1 : tySize t ≤ n := by simp [tyListSize] at h; omega
    have h2 : tyListSize ts ≤ n := by simp [tyListSize] at h; omega
    simp [replacePrimitivesListFuel, rpFuel_adequate t n h1,
      rpListFuel_adequate ts n h2, ReplacePrimitivesList]

theorem rpFieldsFuel_adequate : (fs : Fields) → (n : Nat) → fieldsSize fs ≤ n →
    replacePrimitivesFieldsFuel n fs = some (ReplacePrimitivesFields fs)
  | fs, 0, h => by cases fs <;> simp [fieldsSize] at h
  | .nil, _ + 1, _ => rfl
  | .cons k o t rest, n + 1, h => by
    have h1 : tySize t ≤ n := by simp [fieldsSize] at h; omega
    have h2 : fieldsSize rest ≤ n := by simp [fieldsSize] at h; omega
    simp [replacePrimitivesFieldsFuel, rpFuel_adequate t n h1,
      rpFieldsFuel_adequate rest n h2, ReplacePrimitivesFields]

end

mutual

theorem amFuel_adequate : (t : Ty) → (n : Nat) → (M : Ty) → tySize t ≤ n →
    applyMappingFuel n M t = some (ApplyMapping M t)
  | t, 0, _, h => by cases t <;> simp [tySize] at h
  | .str, _ + 1, _, _ => rfl
  | .num, _ + 1, _, _ => rfl
  | .bool, _ + 1, _, _ => rfl
  | .date, _ + 1, _, _ => rfl
  | .null, _ + 1, _, _ => rfl
  | .undef, _ + 1, _, _ => rfl
  | .arr _, _ + 1, _, _ => rfl
  | .tup _, _ + 1, _, _ => rfl
  | .obj fs, n + 1, M, h => by
    have hf : fieldsSize fs ≤ n := by simp [tySize] at h; omega
    simp [applyMappingFuel, amFieldsFuel_adequate fs n M hf, ApplyMapping]
  | .orNull t, n + 1, M, h => by
    have ht : tySize t ≤ n := by simp [tySize] at h; omega
    simp [applyMappingFuel, amFuel_adequate t n M ht, ApplyMapping]
  | .orUndef t, n + 1, M, h => by
    have ht : tySize t ≤ n := by simp [tySize] at h; omega
    simp [applyMappingFuel, amFuel_adequate t n M ht, ApplyMapping]

theorem amFieldsFuel_adequate : (fs : Fields) → (n : Nat) → (M : Ty) → fieldsSize fs ≤ n →
    applyMappingFieldsFuel n M fs = some (applyMappingFields M fs)
  | fs, 0, _, h => by cases fs <;> simp [fieldsSize] at h
  | .nil, _ + 1, _, _ => rfl
  | .cons k opt t rest, n + 1, M, h => by
    have h1 : tySize t ≤ n := by simp [fieldsSize] at h; omega
    have h2 : fieldsSize rest ≤ n := by simp [fieldsSize] at h; omega
    have hr := amFieldsFuel_adequate rest n M h2
    rcases hm : mapLookup M k with _ | mk
    · cases opt <;>
        simp [applyMappingFieldsFuel, applyMappingFields, hm, hr, apply_ite Option.some]
    · have hv := amFuel_adequate t n mk h1
      cases opt <;>
        by_cases hmap : isMappable t = true <;>
          by_cases harr : isArray t = true <;>
            simp [applyMappingFieldsFuel, applyMappingFields, hm, hv, hr, hmap, harr,
              apply_ite Option.some]

end

/-- C1: For every type shape `T`, `ResponseOf<T>` with no custom mapping
equals the shape a JSON-based API produces when serializing `T`: string,
number and boolean are left unchanged, every occurrence of `Date` — at
any nesting depth, including inside arrays and tuples — is replaced by
`string`, and each property of an object type is normalized
recursively (the spec-derived reference shape is `SpecJsonShape`). -/
theorem c1_responseOf_is_json_shape (T : Ty) : ResponseOf T = SpecJsonShape T := by
  simp [ResponseOf, Expand_id, rp_eq_spec]

/-- C2 counterexample: for `T = { a: string }` and the mapping
`M = { a: string | undefined }` (whose key is a key of `T`, with `T.a`
a primitive), the claim asserts that the property `a` of
`ResponseOf<T, M>` has exactly the type `M.a`; instead the code removes
the property entirely (`ApplyRequiredMapping` remaps to `never` every
required key whose mapped type admits `undefined`). -/
theorem c2_counterexample :
    fieldType (ResponseOfM (.cons "a" false .str .nil)
        (.obj (.cons "a" false (.orUndef .str) .nil))) "a" = none ∧
    fieldType (ResponseOfM (.cons "a" false .str .nil)
        (.obj (.cons "a" false (.orUndef .str) .nil))) "a"
      ≠ some (false, .orUndef .str) := by
  constructor
  · rfl
  · decide

/-- C2 (amended): for every object type `T`, every mapping `M`, and every
required property `k` of `T` that `M` maps to a type `mk` not containing
`undefined`: in `ResponseOf<T, M>` the property `k` has exactly the type
`mk` when `T.k` is a primitive (string, number, boolean or Date) or an
array or tuple, and the type obtained by recursively applying the
sub-mapping `mk` to `T.k` when `T.k` is an object type.  (The original
claim fails when the mapped type contains `undefined` — the property is
dropped or made optional — and on optional properties, which are always
replaced wholesale.) -/
theorem c2_mapped_property (fs : Fields) (M : Ty) (k : String) (t mk : Ty)
    (hf : findField fs k = some (false, t)) (hm : mapLookup M k = some mk)
    (hmk : undefInTop mk = false) :
    ((t = .str ∨ t = .num ∨ t = .bool ∨ t = .date) →
      fieldType (ResponseOfM fs M) k = some (false, mk)) ∧
    (((∃ s, t = .arr s) ∨ (∃ l, t = .tup l)) →
      fieldType (ResponseOfM fs M) k = some (false, mk)) ∧
    (∀ sub, t = .obj sub →
      fieldType (ResponseOfM fs M) k = some (false, ResponseOfM sub mk)) := by
  have hbase : fieldType (ResponseOfM fs M) k
      = findField (applyMappingFields M (ReplacePrimitivesFields fs)) k := by
    simp [ResponseOfM, ReplacePrimitives, ApplyMapping, fieldType, Expand, ExpandFields_id]
  have hfr : findField (ReplacePrimitivesFields fs) k
      = some (false, ReplacePrimitives t) := by
    rw [findField_rpFields, hf]
    rfl
  refine ⟨?_, ?_, ?_⟩
  · rintro (rfl | rfl | rfl | rfl) <;>
      rw [hbase, findField_amFields_mapped _ k M _ mk hm hfr
        (by simp [ApplyMappingToProperty, isMappable, ReplacePrimitives, hmk])] <;>
      simp [ApplyMappingToProperty, isMappable, ReplacePrimitives]
  · rintro (⟨s, rfl⟩ | ⟨l, rfl⟩) <;>
      rw [hbase, findField_amFields_mapped _ k M _ mk hm hfr
        (by simp [ApplyMappingToProperty, isMappable, isArray, ReplacePrimitives, hmk])] <;>
      simp [ApplyMappingToProperty, isMappable, isArray, ReplacePrimitives]
  · rintro sub rfl
    rw [hbase, findField_amFields_mapped _ k M _ mk hm hfr
      (by simp [ApplyMappingToProperty, isMappable, isArray, ReplacePrimitives,
        ApplyMapping, Expand, undefInTop])]
    simp [ApplyMappingToProperty, isMappable, isArray, ReplacePrimitives, ResponseOfM,
      ApplyMapping]

/-- C2 witness: the `birthday` property of the test `Person`, mapped to
`number` by the test mapping, is required with exactly the type `number`
in the mapped response. -/
theorem c2_mapped_property_witness :
    findField PersonFields "birthday" = some (false, .date) ∧
    mapLookup PersonMapping "birthday" = some .num ∧
    undefInTop .num = false ∧
    fieldType (ResponseOfM PersonFields PersonMapping) "birthday" = some (false, .num) :=
  ⟨rfl, rfl, rfl,
    (c2_mapped_property PersonFields PersonMapping "birthday" .date .num rfl rfl rfl).1
      (Or.inr (Or.inr (Or.inr rfl)))⟩

/-- C3: for the `Person` type of the test file, `ResponseOf<Person>` with
no custom mapping is exactly the `DefaultResponse` shape asserted there:
nullability of `contactedAt` is preserved (`string | null`), the optional
`twitter` stays optional, and `Date` inside the tuple becomes `string`
while the other positions are unchanged. -/
theorem c3_person_default : ResponseOf Person = DefaultResponse := rfl

/-- C4: for the `Person` type and the custom mapping of the test file,
`ResponseOf<Person, Mapping>` is exactly the `MappedResponse` shape
asserted there: mapped array and tuple properties are replaced wholesale,
the nested `contact` mapping merges with the unmapped `email`, and the
optional `twitter`, mapped to a type without `undefined`, becomes
required. -/
theorem c4_person_mapped : ResponseOfM PersonFields PersonMapping = MappedResponse := rfl

/-- C5: for every object type with a property of type `Date | null`,
`ResponseOf` with no custom mapping gives that property the type
`string | null`: the `Date` constituent is replaced by `string` and the
`null` constituent is kept. -/
theorem c5_date_null_property (fs : Fields) (k : String) (opt : Bool)
    (hf : findField fs k = some (opt, .orNull .date)) :
    fieldType (ResponseOf (.obj fs)) k = some (opt, .orNull .str) := by
  simp [ResponseOf, ReplacePrimitives, Expand, fieldType, ExpandFields_id]
  rw [findField_rpFields, hf]
  rfl

/-- C5 witness: the `lastLogin: Date | null` property of the README
`User` example becomes `string | null`. -/
theorem c5_date_null_property_witness :
    findField (.cons "lastLogin" false (.orNull .date) .nil) "lastLogin"
        = some (false, .orNull .date) ∧
    fieldType (ResponseOf (.obj (.cons "lastLogin" false (.orNull .date) .nil))) "lastLogin"
        = some (false, .orNull .str) :=
  ⟨rfl, c5_date_null_property _ "lastLogin" false rfl⟩

/-- C6 counterexample: for `T = { a: string | undefined; b: Date }` and
`M = { b: number }`, the property `a` is not mentioned by `M`, yet
`ResponseOf<T, M>` has no property `a` at all while `ResponseOf<T>` keeps
it with type `string | undefined` — an unmapped property does not always
keep its default-mapped type. -/
theorem c6_counterexample :
    fieldType (ResponseOfM
        (.cons "a" false (.orUndef .str) (.cons "b" false .date .nil))
        (.obj (.cons "b" false .num .nil))) "a" = none ∧
    fieldType (ResponseOf
        (.obj (.cons "a" false (.orUndef .str) (.cons "b" false .date .nil)))) "a"
      = some (false, .orUndef .str) :=
  ⟨rfl, rfl⟩

/-- C6 (amended): for every object type `T` and mapping `M`, every
property of `T` that `M` does not mention and whose declared type does
not contain a top-level `undefined` has the same optionality and type in
`ResponseOf<T, M>` as in `ResponseOf<T>` with the default mapping.  (The
original claim fails for required properties whose type admits
`undefined`, which the key remapping of `ApplyRequiredMapping` drops.) -/
theorem c6_unmapped_preserved (fs : Fields) (M : Ty) (k : String) (opt : Bool) (t : Ty)
    (hm : mapLookup M k = none) (hf : findField fs k = some (opt, t))
    (ht : undefInTop t = false) :
    fieldType (ResponseOfM fs M) k = fieldType (ResponseOf (.obj fs)) k := by
  have hbase : fieldType (ResponseOfM fs M) k
      = findField (applyMappingFields M (ReplacePrimitivesFields fs)) k := by
    simp [ResponseOfM, ReplacePrimitives, ApplyMapping, fieldType, Expand, ExpandFields_id]
  have hrhs : fieldType (ResponseOf (.obj fs)) k = some (opt, ReplacePrimitives t) := by
    simp [ResponseOf, ReplacePrimitives, Expand, fieldType, ExpandFields_id]
    rw [findField_rpFields, hf]
    rfl
  have htr : undefInTop (ReplacePrimitives t) = false := by rw [undefInTop_rp]; exact ht
  have hfr : findField (ReplacePrimitivesFields fs) k
      = some (opt, ReplacePrimitives t) := by
    rw [findField_rpFields, hf]
    rfl
  cases opt
  · rw [hbase, findField_amFields_unmappedReq _ k M _ hm hfr htr, hrhs]
  · rw [hbase, findField_amFields_unmappedOpt _ k M _ hm hfr, hrhs,
      stripUndef_of_noUndef _ htr]

/-- C6 witness: the unmapped `name` property of a `User`-like shape keeps
its default-mapped type when only `createdAt` is mapped. -/
theorem c6_unmapped_preserved_witness :
    mapLookup (.obj (.cons "createdAt" false .num .nil)) "name" = none ∧
    findField (.cons "name" false .str (.cons "createdAt" false .date .nil)) "name"
      = some (false, .str) ∧
    undefInTop .str = false ∧
    fieldType (ResponseOfM (.cons "name" false .str (.cons "createdAt" false .date .nil))
        (.obj (.cons "createdAt" false .num .nil))) "name"
      = fieldType (ResponseOf
        (.obj (.cons "name" false .str (.cons "createdAt" false .date .nil)))) "name" :=
  ⟨rfl, rfl, rfl,
    c6_unmapped_preserved (.cons "name" false .str (.cons "createdAt" false .date .nil))
      (.obj (.cons "createdAt" false .num .nil)) "name" false .str rfl rfl rfl⟩

/-- C7: the `ResponseOf` transformation is total — its recursion over
nested properties, array elements and tuple positions terminates within
`tySize` steps and produces a result type for every shape and every
mapping, witnessed by the fuel-indexed evaluators reaching a result
(never the exhaustion outcome `none`) at fuel `tySize`. -/
theorem c7_total (T : Ty) (fs : Fields) (M : Ty) :
    replacePrimitivesFuel (tySize T) T = some (ReplacePrimitives T) ∧
    responseOfMFuel (tySize (.obj fs)) fs M = some (ResponseOfM fs M) := by
  constructor
  · exact rpFuel_adequate T (tySize T) le_rfl
  · have h1 : replacePrimitivesFuel (tySize (Ty.obj fs)) (.obj fs)
        = some (ReplacePrimitives (.obj fs)) := rpFuel_adequate _ _ le_rfl
    have h2 : applyMappingFuel (tySize (Ty.obj fs)) M (ReplacePrimitives (.obj fs))
        = some (ApplyMapping M (ReplacePrimitives (.obj fs))) :=
      amFuel_adequate _ _ M (by rw [tySize_rp])
    simp [responseOfMFuel, h1, h2, ResponseOfM]

/-- C8 counterexample: on `T = { lastLogin: Date | null }` the
`ResponseOf` of src/index.d.ts produces `{ lastLogin: string }` (its
`T[K] extends Date | null` branch discards the `null`), while the
`ResponseOf` of src/unnamed/part_000 produces `{ lastLogin: string |
null }` — the shape the test file and the README document.  The two
shipped implementations are not equivalent. -/
theorem c8_counterexample :
    IndexD.ResponseOf (.obj (.cons "lastLogin" false (.orNull .date) .nil))
        = some (.obj (.cons "lastLogin" false .str .nil)) ∧
    IndexD.ResponseOf (.obj (.cons "lastLogin" false (.orNull .date) .nil))
        ≠ some (ResponseOf (.obj (.cons "lastLogin" false (.orNull .date) .nil))) := by
  constructor
  · rfl
  · decide

/-- C8 (amended): on the strict fragment — shapes with no `null`,
`undefined` or union anywhere and all object properties required — the
two shipped `ResponseOf` implementations produce the same result type. -/
theorem c8_strict_agreement (T : Ty) (h : strictAll T = true) :
    IndexD.ResponseOf T = some (ResponseOf T) := by
  rw [ResponseOf, Expand_id]
  exact indexd_strict T h

/-- C8 witness: the two implementations agree on a strict
`{ name: string; createdAt: Date }` shape. -/
theorem c8_strict_agreement_witness :
    strictAll (.obj (.cons "name" false .str (.cons "createdAt" false .date .nil))) = true ∧
    IndexD.ResponseOf (.obj (.cons "name" false .str (.cons "createdAt" false .date .nil)))
      = some (ResponseOf (.obj (.cons "name" false .str
          (.cons "createdAt" false .date .nil)))) :=
  ⟨rfl, c8_strict_agreement _ rfl⟩

/-- C9: the default transformation is idempotent:
`ResponseOf<ResponseOf<T>> = ResponseOf<T>` for every shape `T`, since a
normalized shape contains no `Date` and every remaining constituent is a
fixed point. -/
theorem c9_idempotent (T : Ty) : ResponseOf (ResponseOf T) = ResponseOf T := by
  simp [ResponseOf, Expand_id, rp_idem]

/-- C10 counterexample: for `T = { a: string | undefined }`, supplying
the empty mapping is not the same as supplying none:
`ResponseOf<T, \x7b\x7d>` drops the required property `a` (its type
admits `undefined`), while `ResponseOf<T>` keeps it. -/
theorem c10_counterexample :
    ResponseOfM (.cons "a" false (.orUndef .str) .nil) (.obj .nil)
      ≠ ResponseOf (.obj (.cons "a" false (.orUndef .str) .nil)) := by
  decide

/-- C10 (amended): for every object type `T` none of whose property types
contains a top-level `undefined`, supplying the empty custom mapping is
the same as supplying none: `ResponseOf<T, \x7b\x7d> = ResponseOf<T>`. -/
theorem c10_empty_mapping (fs : Fields) (h : emptyMappingSafe fs = true) :
    ResponseOfM fs (.obj .nil) = ResponseOf (.obj fs) := by
  simp [ResponseOfM, ResponseOf, ReplacePrimitives, ApplyMapping,
    applyMappingFields_empty (ReplacePrimitivesFields fs)
      (by rw [emptyMappingSafe_rp]; exact h)]

/-- C10 witness: the empty mapping leaves a `User`-like shape with a
nullable property exactly as the default mapping does. -/
theorem c10_empty_mapping_witness :
    emptyMappingSafe (.cons "email" false .str
        (.cons "lastLogin" false (.orNull .date) .nil)) = true ∧
    ResponseOfM (.cons "email" false .str
        (.cons "lastLogin" false (.orNull .date) .nil)) (.obj .nil)
      = ResponseOf (.obj (.cons "email" false .str
          (.cons "lastLogin" false (.orNull .date) .nil))) :=
  ⟨rfl, c10_empty_mapping _ rfl⟩
